import Mathlib

/-!
Shallow embedding of the medQueryBot pipeline (src/src/embeddings.py,
src/src/cache.py, src/src/retriever.py, src/src/bot.py, src/src/models.py).

Conventions of the embedding:
* Python floats are modelled exactly: finite values as rationals, and the
  IEEE special values NaN and the two infinities as explicit constructors
  of `FV`.  Rounding and underflow are out of scope; the special-value
  propagation rules (inf * inf = inf, inf / inf = NaN, x / inf = 0, ...)
  are modelled faithfully.
* External services (the literature-search HTTP API, the sentence-embedding
  model, the LLM) are oracles: plain function parameters.
* The on-disk JSON caches are modelled as two key-indexed partial maps; the
  md5 hex digest used for keys is an oracle parameter `hkey`.
-/

namespace MedQuery

/-- A Python float: a finite rational or one of the IEEE special values. -/
inductive FV where
  | fin (q : ℚ)
  | inf
  | ninf
  | nan
deriving DecidableEq, Repr

/-- np.isnan on a single value. -/
def FV.isnan : FV → Bool
  | .nan => true
  | _ => false

/-- The value is finite (neither NaN nor an infinity). -/
def FV.isFinite : FV → Bool
  | .fin _ => true
  | _ => false

/-- IEEE multiplication on the float model. -/
def fmul : FV → FV → FV
  | .nan, _ => .nan
  | _, .nan => .nan
  | .fin a, .fin b => .fin (a * b)
  | .inf, .fin b => if 0 < b then .inf else if b < 0 then .ninf else .nan
  | .fin a, .inf => if 0 < a then .inf else if a < 0 then .ninf else .nan
  | .ninf, .fin b => if 0 < b then .ninf else if b < 0 then .inf else .nan
  | .fin a, .ninf => if 0 < a then .ninf else if a < 0 then .inf else .nan
  | .inf, .inf => .inf
  | .inf, .ninf => .ninf
  | .ninf, .inf => .ninf
  | .ninf, .ninf => .inf

/-- IEEE addition on the float model. -/
def fadd : FV → FV → FV
  | .nan, _ => .nan
  | _, .nan => .nan
  | .fin a, .fin b => .fin (a + b)
  | .inf, .ninf => .nan
  | .ninf, .inf => .nan
  | .inf, _ => .inf
  | _, .inf => .inf
  | .ninf, _ => .ninf
  | _, .ninf => .ninf

/-- np.dot(v1, v2): the sum of the pointwise products. -/
def dotFV (v1 v2 : List FV) : FV :=
  (List.zipWith fmul v1 v2).foldl fadd (.fin 0)

/-- The sum of squares of a vector; np.linalg.norm(v) is its square root. -/
def sumSq (v : List FV) : FV :=
  (v.map (fun x => fmul x x)).foldl fadd (.fin 0)

/-- The value returned by `_cosine_similarity`.  `posQuot d s` stands for the
real number d / sqrt s with s > 0: the square root of a rational is not
rational in general, so the performed division is kept symbolic.  Every
other outcome is an exactly represented float `val v`. -/
inductive SimResult where
  | val (v : FV)
  | posQuot (num : ℚ) (denomSq : ℚ)
deriving DecidableEq, Repr

/-- A finite float divided by an infinite norm product, per IEEE:
finite / inf = 0, while inf / inf and (-inf) / inf are NaN. -/
def finOverInf : FV → SimResult
  | .fin _ => .val (.fin 0)
  | _ => .val .nan

/-- The tail of `_cosine_similarity` after the NaN check: the code computes
norm_product = sqrt s1 * sqrt s2, returns 0.0 when norm_product == 0, and
otherwise returns dot / norm_product.  `s1` and `s2` are the two sums of
squares, so norm_product = sqrt (s1 * s2). -/
def divByNormProd (dot s1 s2 : FV) : SimResult :=
  match s1, s2 with
  | .fin a, .fin b =>
    if a < 0 ∨ b < 0 then .val .nan
    else if a = 0 ∨ b = 0 then .val (.fin 0)
    else
      match dot with
      | .fin d => .posQuot d (a * b)
      | .inf => .val .inf
      | .ninf => .val .ninf
      | .nan => .val .nan
  | .inf, .fin b => if b = 0 ∨ b < 0 then .val .nan else finOverInf dot
  | .fin a, .inf => if a = 0 ∨ a < 0 then .val .nan else finOverInf dot
  | .inf, .inf => finOverInf dot
  | _, _ => .val .nan

/-- EmbeddingReranker._cosine_similarity: returns 0.0 when either input
contains a NaN (np.isnan check), returns 0.0 when the product of the two
norms is zero, and otherwise divides the dot product by the norm product. -/
def cosine_similarity (v1 v2 : List FV) : SimResult :=
  if v1.any FV.isnan || v2.any FV.isnan then .val (.fin 0)
  else divByNormProd (dotFV v1 v2) (sumSq v1) (sumSq v2)

/-- models.Paper.  `embedding` is optional and starts unset; the reranker
fills it in.  Integers are unbounded in Python, hence ℤ. -/
structure Paper where
  title : String
  abstract : String
  year : ℤ
  authors : List String
  citation_count : ℤ
  url : String
  paper_id : String
  tldr : Option String := none
  embedding : Option (List FV) := none
  relevance_score : ℚ := 0
deriving DecidableEq, Repr

/-- citation_score = min(citation_count / 100, 1.0). -/
def citationScore (citation_count : ℤ) : ℚ :=
  min ((citation_count : ℚ) / 100) 1

/-- recency_score = (year - 2020) / 10 if year >= 2020 else 0. -/
def recencyScore (year : ℤ) : ℚ :=
  if 2020 ≤ year then ((year : ℚ) - 2020) / 10 else 0

/-- relevance_score = 0.6 * similarity + 0.25 * citation_score
+ 0.15 * recency_score. -/
def relevanceScore (similarity : ℚ) (citation_count year : ℤ) : ℚ :=
  6 / 10 * similarity + 25 / 100 * citationScore citation_count
    + 15 / 100 * recencyScore year

/-- The per-paper update performed in the scoring loop of `rerank_papers`:
store the embedding on the paper and assign its relevance score.  The
similarity value for each paper (a float produced from the external
embedding model) is abstracted as the oracle `simOf`, and the embedding
vector as the oracle `embOf`. -/
def assignScore (simOf : Paper → ℚ) (embOf : Paper → List FV) (p : Paper) : Paper :=
  { p with embedding := some (embOf p),
           relevance_score := relevanceScore (simOf p) p.citation_count p.year }

/-- The comparison used by papers.sort(key=relevance_score, reverse=True):
`a` may stay before `b` exactly when the score of `a` is at least that of
`b`.  With a stable sort this reproduces the Python ordering. -/
def scoreDesc (a b : Paper) : Prop :=
  b.relevance_score ≤ a.relevance_score

instance : DecidableRel scoreDesc :=
  fun a b => inferInstanceAs (Decidable (b.relevance_score ≤ a.relevance_score))

instance : IsTotal Paper scoreDesc :=
  ⟨fun a b => le_total b.relevance_score a.relevance_score⟩

instance : IsTrans Paper scoreDesc :=
  ⟨fun _ _ _ h1 h2 => le_trans h2 h1⟩

/-- EmbeddingReranker.rerank_papers: empty input short-circuits to [];
otherwise each paper gets its embedding and relevance score assigned, the
list is sorted by score descending with a stable sort (Python list.sort is
stable, and any two stable sorts over the same comes-before relation agree,
so insertion sort is used here), and the first top_k papers are returned. -/
def rerank_papers (simOf : Paper → ℚ) (embOf : Paper → List FV)
    (papers : List Paper) (top_k : ℕ) : List Paper :=
  match papers with
  | [] => []
  | _ =>
    (List.insertionSort scoreDesc (papers.map (assignScore simOf embOf))).take top_k

/-- Lexicographic comparison of character lists by code point, the order
Python sorted() uses on strings. -/
def lexLe : List Char → List Char → Bool
  | [], _ => true
  | _ :: _, [] => false
  | a :: as, b :: bs =>
    if a.toNat < b.toNat then true
    else if a.toNat = b.toNat then lexLe as bs
    else false

/-- String comparison used when sorting paper ids. -/
def strLe (a b : String) : Prop :=
  lexLe a.data b.data = true

instance : DecidableRel strLe :=
  fun a b => inferInstanceAs (Decidable (lexLe a.data b.data = true))

/-- sorted(paper_ids): a stable ascending sort by code-point order. -/
def sortedIds (ids : List String) : List String :=
  List.insertionSort strLe ids

def pipeSep : String := "|"

/-- The lookup string hashed for the answers namespace:
question + pipe + pipe-joined *sorted* paper ids. -/
def answerCacheInput (question : String) (paper_ids : List String) : String :=
  question ++ pipeSep ++ String.intercalate pipeSep (sortedIds paper_ids)

/-- cache.ResultCache: two independent key-value namespaces (one file per
key on disk).  `papersNs` holds the serialized paper lists, `answersNs`
the answer strings. -/
structure ResultCache where
  papersNs : String → Option (List Paper)
  answersNs : String → Option String

/-- The dict written per paper by cache_papers: it copies title, abstract,
year, authors, citation_count, url, tldr, relevance_score and paper_id,
and does not include the embedding, so a Paper rebuilt from the cache has
embedding = None. -/
def serializePaper (p : Paper) : Paper :=
  { p with embedding := none }

/-- ResultCache.get_cached_papers: look up the papers namespace under the
hash of the query text. -/
def get_cached_papers (hkey : String → String) (c : ResultCache)
    (query : String) : Option (List Paper) :=
  c.papersNs (hkey query)

/-- ResultCache.cache_papers: store the serialized papers under the hash of
the query text. -/
def cache_papers (hkey : String → String) (c : ResultCache) (query : String)
    (papers : List Paper) : ResultCache :=
  { c with papersNs :=
      fun k => if k = hkey query then some (papers.map serializePaper) else c.papersNs k }

/-- ResultCache.get_cached_answer: look up the answers namespace under the
hash of question + sorted paper ids. -/
def get_cached_answer (hkey : String → String) (c : ResultCache)
    (question : String) (paper_ids : List String) : Option String :=
  c.answersNs (hkey (answerCacheInput question paper_ids))

/-- ResultCache.cache_answer: store the answer under the hash of
question + sorted paper ids. -/
def cache_answer (hkey : String → String) (c : ResultCache)
    (question : String) (paper_ids : List String) (answer : String) : ResultCache :=
  { c with answersNs :=
      fun k => if k = hkey (answerCacheInput question paper_ids) then some answer
               else c.answersNs k }

/-- A raw JSON record from the Semantic Scholar search response.  Absent
keys are `none`; item.get defaults are applied when building a Paper.
`tldrText` is the optional tldr object holding its own optional text. -/
structure RawRecord where
  title : Option String := none
  abstract : Option String := none
  year : Option ℤ := none
  authorNames : List (Option String) := []
  citationCount : Option ℤ := none
  url : Option String := none
  tldrText : Option (Option String) := none
  paperId : Option String := none
deriving DecidableEq, Repr

/-- The per-record filter and conversion in search_papers: a record is kept
only if its abstract exists and is longer than 100 characters (the Python
guard also tests truthiness of the abstract, which the length bound
subsumes); missing fields fall back to the defaults used by item.get. -/
def toPaper (item : RawRecord) : Option Paper :=
  match item.abstract with
  | none => none
  | some ab =>
    if 100 < ab.length then
      some { title := item.title.getD "",
             abstract := ab,
             year := item.year.getD 0,
             authors := item.authorNames.map (fun a => a.getD ""),
             citation_count := item.citationCount.getD 0,
             url := item.url.getD "",
             paper_id := item.paperId.getD "",
             tldr := item.tldrText.join,
             embedding := none,
             relevance_score := 0 }
    else none

/-- The outcome of the HTTP request issued by search_papers: either a
network failure (requests raised) or a response with a status code and,
for status 200, a parsed data list. -/
inductive HttpOutcome where
  | networkError
  | response (status : ℤ) (data : List RawRecord)

/-- SemanticScholarRetriever.search_papers, from the HTTP outcome on: a
network error or a non-200 status yields the empty list rather than an
exception; a 200 response is filtered through `toPaper`. -/
def search_papers (out : HttpOutcome) : List Paper :=
  match out with
  | .networkError => []
  | .response status data =>
    if status ≠ 200 then [] else data.filterMap toPaper

/-- The mutable trio of the retrieval loop in answer_question:
all_papers, seen_paper_ids and the cache. -/
structure RetrievalState where
  all_papers : List Paper
  seen_paper_ids : List String
  cache : ResultCache

/-- One iteration of the cache-hit branch: a cached paper is appended only
when its paper_id (which may be the empty string) has not been seen, and
its paper_id is then recorded as seen. -/
def addCachedPaper (st : RetrievalState) (p : Paper) : RetrievalState :=
  if p.paper_id ∈ st.seen_paper_ids then st
  else { st with all_papers := st.all_papers ++ [p],
                 seen_paper_ids := st.seen_paper_ids ++ [p.paper_id] }

/-- One iteration of the fresh-fetch branch: a paper with a non-empty
unseen paper_id is appended and marked seen; a paper with an empty
paper_id is appended when no accumulated paper has its exact title;
otherwise the paper is dropped.  Newly accepted papers are also collected
into new_papers (the second component). -/
def addFreshPaper : RetrievalState × List Paper → Paper → RetrievalState × List Paper
  | (st, new_papers), p =>
    if p.paper_id ≠ "" ∧ p.paper_id ∉ st.seen_paper_ids then
      ({ st with all_papers := st.all_papers ++ [p],
                 seen_paper_ids := st.seen_paper_ids ++ [p.paper_id] },
       new_papers ++ [p])
    else if p.paper_id = "" ∧ p.title ∉ st.all_papers.map Paper.title then
      ({ st with all_papers := st.all_papers ++ [p] }, new_papers ++ [p])
    else (st, new_papers)

/-- One pass of the retrieval loop for a single query.  A cache entry is
used only when reading is enabled and the entry is non-empty (the Python
`if cached_papers:` is false for an empty list); otherwise the search
oracle is called, its results merged with deduplication, and the newly
accepted papers — when there are any and caching is enabled — are written
to the papers cache under this query. -/
def processQuery (hkey : String → String) (use_cached use_cache : Bool)
    (search : String → List Paper) (st : RetrievalState) (query : String) :
    RetrievalState :=
  match (if use_cached && use_cache then get_cached_papers hkey st.cache query else none) with
  | some (p :: rest) => (p :: rest).foldl addCachedPaper st
  | _ =>
    let res := (search query).foldl addFreshPaper (st, [])
    if use_cache && !res.2.isEmpty then
      { res.1 with cache := cache_papers hkey res.1.cache query res.2 }
    else res.1

/-- Step 2 of answer_question: fold the per-query pass over the generated
queries, starting from no papers, no seen ids, and the given cache. -/
def retrieve (hkey : String → String) (use_cached use_cache : Bool)
    (search : String → List Paper) (queries : List String) (c : ResultCache) :
    RetrievalState :=
  queries.foldl (processQuery hkey use_cached use_cache search) ⟨[], [], c⟩

/-- The structured analysis returned by detect_contradictions. -/
structure ContraAnalysis where
  analysis : String
deriving DecidableEq, Repr

/-- The dict returned by answer_question.  `from_cache` is an Option Bool:
`none` models the from_cache key being absent from the returned dict. -/
structure PipelineResult where
  question : String
  queries_used : List String
  papers_analyzed : ℕ
  papers_used : ℕ
  papers : List Paper
  contradictions : Option ContraAnalysis
  answer : String
  from_cache : Option Bool
deriving DecidableEq

/-- The external collaborators of the pipeline, as oracles: query
generation, paper search (per query text, with the fetch limit already
applied), the per-paper cosine similarity and embedding produced through
the embedding model, contradiction detection and answer synthesis. -/
structure Oracles where
  genQueries : String → List String
  search : String → List Paper
  simOf : Paper → ℚ
  embOf : Paper → List FV
  detect : List Paper → ContraAnalysis
  synthesize : String → List Paper → Option ContraAnalysis → String

/-- The fixed answer of the empty-result short-circuit. -/
def noPapersMessage : String :=
  "No papers found. Try rephrasing your question or broadening the scope."

/-- EnhancedMedQueryBot.answer_question: generate queries, run the
retrieval loop, short-circuit when no papers survive (note: this return
dict carries no from_cache key), rerank, consult the answer cache on the
non-empty paper ids of the top papers, otherwise optionally detect
contradictions, synthesize, and write the answer cache when there are
non-empty paper ids.  Returns the result dict and the final cache. -/
def answer_question (hkey : String → String) (o : Oracles) (use_cache : Bool)
    (user_question : String) (detect_contradictions : Bool) (top_k_papers : ℕ)
    (use_cached : Bool) (c : ResultCache) : PipelineResult × ResultCache :=
  let queries := o.genQueries user_question
  let st := retrieve hkey use_cached use_cache o.search queries c
  if st.all_papers.isEmpty then
    ({ question := user_question, queries_used := queries, papers_analyzed := 0,
       papers_used := 0, papers := [], contradictions := none,
       answer := noPapersMessage, from_cache := none }, st.cache)
  else
    let top_papers := rerank_papers o.simOf o.embOf st.all_papers top_k_papers
    let paper_ids := top_papers.filterMap
      (fun p => if p.paper_id = "" then none else some p.paper_id)
    match (if use_cached && use_cache && !paper_ids.isEmpty then
             get_cached_answer hkey st.cache user_question paper_ids
           else none) with
    | some cached_answer =>
      ({ question := user_question, queries_used := queries,
         papers_analyzed := st.all_papers.length, papers_used := top_papers.length,
         papers := top_papers, contradictions := none, answer := cached_answer,
         from_cache := some true }, st.cache)
    | none =>
      let contradictions :=
        if detect_contradictions = true ∧ 2 ≤ top_papers.length then
          some (o.detect top_papers)
        else none
      let answer := o.synthesize user_question top_papers contradictions
      let c2 :=
        if use_cache && !paper_ids.isEmpty then
          cache_answer hkey st.cache user_question paper_ids answer
        else st.cache
      ({ question := user_question, queries_used := queries,
         papers_analyzed := st.all_papers.length, papers_used := top_papers.length,
         papers := top_papers, contradictions := contradictions, answer := answer,
         from_cache := some false }, c2)

/-! ### Sorting lemmas for the reranker -/

/-- Inserting a paper with the descending comparison keeps the filtered
equal-score sublist intact: the inserted paper lands in front of every
paper of equal score (this is what makes the sort stable). -/
theorem filter_orderedInsert_score (v : ℚ) (p : Paper) (l : List Paper) :
    (List.orderedInsert scoreDesc p l).filter (fun q => q.relevance_score = v) =
      if p.relevance_score = v then
        p :: l.filter (fun q => q.relevance_score = v)
      else l.filter (fun q => q.relevance_score = v) := by
  induction l with
  | nil =>
    by_cases hp : p.relevance_score = v <;> simp [List.orderedInsert, hp]
  | cons q t ih =>
    rw [List.orderedInsert]
    by_cases h : scoreDesc p q
    · rw [if_pos h]
      by_cases hp : p.relevance_score = v <;> simp [List.filter_cons, hp]
    · rw [if_neg h]
      have hq : ¬ q.relevance_score ≤ p.relevance_score := h
      by_cases hp : p.relevance_score = v
      · have hqv : ¬ q.relevance_score = v := by
          intro hqq
          exact hq (by rw [hqq, ← hp])
        simp [List.filter_cons, hqv, ih, hp]
      · by_cases hqv : q.relevance_score = v <;>
          simp [List.filter_cons, hqv, ih, hp]

/-- The insertion sort by descending score preserves, for each score value,
the sublist of papers carrying that score. -/
theorem filter_insertionSort_score (v : ℚ) (l : List Paper) :
    (List.insertionSort scoreDesc l).filter (fun q => q.relevance_score = v) =
      l.filter (fun q => q.relevance_score = v) := by
  induction l with
  | nil => rfl
  | cons p t ih =>
    rw [List.insertionSort, filter_orderedInsert_score, ih]
    by_cases hp : p.relevance_score = v <;> simp [List.filter_cons, hp]

/-- C1: for every similarity and embedding oracle (hence every query) and
every paper list, rerank_papers returns a list of length
min(top_k, number of input papers), sorted descending by relevance_score,
and stably so: for each score value, the returned papers carrying that
score form a prefix of the scored input papers carrying that score, in
input order.  The empty input yields the empty output. -/
theorem rerank_papers_length_sorted_stable (simOf : Paper → ℚ)
    (embOf : Paper → List FV) (papers : List Paper) (top_k : ℕ) :
    (rerank_papers simOf embOf papers top_k).length = min top_k papers.length
    ∧ List.Sorted scoreDesc (rerank_papers simOf embOf papers top_k)
    ∧ (∀ v : ℚ,
        List.IsPrefix
          ((rerank_papers simOf embOf papers top_k).filter
            (fun q => q.relevance_score = v))
          ((papers.map (assignScore simOf embOf)).filter
            (fun q => q.relevance_score = v)))
    ∧ rerank_papers simOf embOf [] top_k = [] := by
  cases papers with
  | nil => simp [rerank_papers]
  | cons p t =>
    have hre : rerank_papers simOf embOf (p :: t) top_k =
        (List.insertionSort scoreDesc
          ((p :: t).map (assignScore simOf embOf))).take top_k := rfl
    refine ⟨?_, ?_, ?_, rfl⟩
    · rw [hre, List.length_take,
        (List.perm_insertionSort scoreDesc _).length_eq, List.length_map]
    · rw [hre]
      exact List.Pairwise.sublist (List.take_sublist _ _)
        (List.sorted_insertionSort scoreDesc _)
    · intro v
      rw [hre, ← filter_insertionSort_score v ((p :: t).map (assignScore simOf embOf))]
      exact List.IsPrefix.filter _ (List.take_prefix _ _)

/-! ### The relevance-score formula (C2) -/

/-- A fixture paper: year 2031, 100 citations. -/
def paper2031 : Paper :=
  { title := "t", abstract := "a", year := 2031, authors := [],
    citation_count := 100, url := "", paper_id := "x", tldr := none,
    embedding := none, relevance_score := 0 }

/-- C2 counterexample: at year 2031 (with perfect similarity 1 and 100
citations) rerank_papers assigns relevance score 0.6 + 0.25 + 0.165 =
1.015 > 1, and the recency term 0.15 * 1.1 alone exceeds 0.15: the code
does not cap the recency contribution at year 2030, so the claimed bounds
fail for years after 2030. -/
theorem relevance_score_bounds_counterexample :
    (rerank_papers (fun _ => 1) (fun _ => []) [paper2031] 1).map
        (fun p => p.relevance_score) = [relevanceScore 1 100 2031]
    ∧ 15 / 100 * recencyScore 2031 > 15 / 100
    ∧ relevanceScore 1 100 2031 > 1 := by
  refine ⟨rfl, ?_, ?_⟩ <;>
    norm_num [recencyScore, relevanceScore, citationScore, min_def]

/-- C2 amended: the relevance score equals
0.6 * similarity + 0.25 * min(citation_count / 100, 1)
+ 0.15 * ((year - 2020) / 10 if year >= 2020 else 0).
For citation_count >= 0 the citation term lies in [0, 0.25].  The recency
term is only bounded by 0.15 when additionally year <= 2030 (it keeps
growing linearly after 2030), and under similarity in [-1, 1],
citation_count >= 0 and 2020 <= year <= 2030 the total score lies in
[-0.6, 1]. -/
theorem relevanceScore_formula_and_bounds (sim : ℚ) (c y : ℤ) :
    relevanceScore sim c y =
        6 / 10 * sim + 25 / 100 * min ((c : ℚ) / 100) 1
          + 15 / 100 * (if 2020 ≤ y then ((y : ℚ) - 2020) / 10 else 0)
    ∧ (0 ≤ c → 0 ≤ citationScore c ∧ 25 / 100 * citationScore c ≤ 25 / 100)
    ∧ (2020 ≤ y → y ≤ 2030 →
        0 ≤ recencyScore y ∧ 15 / 100 * recencyScore y ≤ 15 / 100)
    ∧ (-1 ≤ sim → sim ≤ 1 → 0 ≤ c → 2020 ≤ y → y ≤ 2030 →
        -(6 / 10) ≤ relevanceScore sim c y ∧ relevanceScore sim c y ≤ 1) := by
  have hc1 : citationScore c ≤ 1 := min_le_right _ _
  have hc0 : 0 ≤ c → 0 ≤ citationScore c := by
    intro hc
    refine le_min (div_nonneg ?_ (by norm_num)) (by norm_num)
    exact_mod_cast hc
  have hrec : 2020 ≤ y → y ≤ 2030 → 0 ≤ recencyScore y ∧ recencyScore y ≤ 1 := by
    intro h1 h2
    have h1q : (2020 : ℚ) ≤ (y : ℚ) := by exact_mod_cast h1
    have h2q : (y : ℚ) ≤ 2030 := by exact_mod_cast h2
    rw [recencyScore, if_pos h1]
    constructor
    · apply div_nonneg (by linarith) (by norm_num)
    · rw [div_le_one (by norm_num)]
      linarith
  have hrec0 : 0 ≤ recencyScore y := by
    by_cases h : 2020 ≤ y
    · have h1q : (2020 : ℚ) ≤ (y : ℚ) := by exact_mod_cast h
      rw [recencyScore, if_pos h]
      apply div_nonneg (by linarith) (by norm_num)
    · rw [recencyScore, if_neg h]
  refine ⟨rfl, ?_, ?_, ?_⟩
  · intro hc
    exact ⟨hc0 hc, by nlinarith [hc1, hc0 hc]⟩
  · intro h1 h2
    obtain ⟨hr0, hr1⟩ := hrec h1 h2
    exact ⟨hr0, by nlinarith⟩
  · intro hs1 hs2 hc hy1 hy2
    obtain ⟨hr0, hr1⟩ := hrec hy1 hy2
    have hcc := hc0 hc
    constructor <;> (rw [relevanceScore]; nlinarith [hc1, hcc, hr0, hr1])

/-- Witness for C2: at similarity 0, 50 citations and year 2025 all the
hypotheses hold and the bounds are delivered by the theorem. -/
theorem relevanceScore_formula_and_bounds_witness :
    ((0 : ℤ) ≤ 50 ∧ (2020 : ℤ) ≤ 2025 ∧ (2025 : ℤ) ≤ 2030
      ∧ (-1 : ℚ) ≤ 0 ∧ (0 : ℚ) ≤ 1)
    ∧ (0 ≤ citationScore 50 ∧ 25 / 100 * citationScore 50 ≤ 25 / 100)
    ∧ (0 ≤ recencyScore 2025 ∧ 15 / 100 * recencyScore 2025 ≤ 15 / 100)
    ∧ (-(6 / 10) ≤ relevanceScore 0 50 2025 ∧ relevanceScore 0 50 2025 ≤ 1) :=
  ⟨⟨by decide, by decide, by decide, by decide, by decide⟩,
    (relevanceScore_formula_and_bounds 0 50 2025).2.1 (by decide),
    (relevanceScore_formula_and_bounds 0 50 2025).2.2.1 (by decide) (by decide),
    (relevanceScore_formula_and_bounds 0 50 2025).2.2.2 (by decide) (by decide)
      (by decide) (by decide) (by decide)⟩

/-! ### Cosine-similarity safety (C3) -/

/-- A list of finite values contains no NaN. -/
theorem all_isFinite_any_isnan (v : List FV) (h : v.all FV.isFinite = true) :
    v.any FV.isnan = false := by
  rw [List.all_eq_true] at h
  rw [List.any_eq_false]
  intro x hx
  have hfin := h x hx
  cases x <;> simp_all [FV.isFinite, FV.isnan]

/-- Folding squares of finite values onto a nonnegative finite accumulator
stays finite and nonnegative. -/
theorem sumSq_aux (v : List FV) : ∀ a : ℚ, 0 ≤ a → v.all FV.isFinite = true →
    ∃ q : ℚ, (v.map (fun x => fmul x x)).foldl fadd (.fin a) = .fin q ∧ 0 ≤ q := by
  induction v with
  | nil => exact fun a ha _ => ⟨a, rfl, ha⟩
  | cons x t ih =>
    intro a ha h
    rw [List.all_cons, Bool.and_eq_true] at h
    obtain ⟨hx, ht⟩ := h
    cases x with
    | fin b =>
      have hstep : (List.map (fun x => fmul x x) (FV.fin b :: t)).foldl fadd (FV.fin a)
          = (t.map (fun x => fmul x x)).foldl fadd (.fin (a + b * b)) := rfl
      rw [hstep]
      exact ih (a + b * b) (add_nonneg ha (mul_self_nonneg b)) ht
    | inf => simp [FV.isFinite] at hx
    | ninf => simp [FV.isFinite] at hx
    | nan => simp [FV.isFinite] at hx

/-- The sum of squares of an all-finite vector is a nonnegative finite
value. -/
theorem sumSq_fin (v : List FV) (h : v.all FV.isFinite = true) :
    ∃ q : ℚ, sumSq v = .fin q ∧ 0 ≤ q :=
  sumSq_aux v 0 le_rfl h

/-- The dot product of two all-finite vectors is finite. -/
theorem dotFV_fin (v1 : List FV) : ∀ (v2 : List FV) (a : ℚ),
    v1.all FV.isFinite = true → v2.all FV.isFinite = true →
    ∃ d : ℚ, (List.zipWith fmul v1 v2).foldl fadd (.fin a) = .fin d := by
  induction v1 with
  | nil => exact fun v2 a _ _ => ⟨a, rfl⟩
  | cons x t ih =>
    intro v2 a h1 h2
    cases v2 with
    | nil => exact ⟨a, rfl⟩
    | cons y s =>
      rw [List.all_cons, Bool.and_eq_true] at h1 h2
      obtain ⟨hx, ht⟩ := h1
      obtain ⟨hy, hs⟩ := h2
      cases x with
      | fin b =>
        cases y with
        | fin cc =>
          have hstep : (List.zipWith fmul (FV.fin b :: t) (FV.fin cc :: s)).foldl fadd (FV.fin a)
              = (List.zipWith fmul t s).foldl fadd (.fin (a + b * cc)) := rfl
          rw [hstep]
          exact ih s (a + b * cc) ht hs
        | inf => simp [FV.isFinite] at hy
        | ninf => simp [FV.isFinite] at hy
        | nan => simp [FV.isFinite] at hy
      | inf => simp [FV.isFinite] at hx
      | ninf => simp [FV.isFinite] at hx
      | nan => simp [FV.isFinite] at hx

/-- C3 amended: the cosine similarity returns 0 whenever either input
vector contains a NaN, and — for vectors of finite values — returns 0
whenever either sum of squares is zero (so the division is never performed
with a zero denominator); on finite vectors the result is either that 0 or
the symbolic quotient dot / sqrt s with s > 0, so no invalid value arises.
A vector containing an infinity is NOT caught by the NaN check (see the
counterexample). -/
theorem cosine_similarity_safety (v1 v2 : List FV) :
    ((v1.any FV.isnan || v2.any FV.isnan) = true →
        cosine_similarity v1 v2 = .val (.fin 0))
    ∧ (v1.all FV.isFinite = true → v2.all FV.isFinite = true →
        (sumSq v1 = .fin 0 ∨ sumSq v2 = .fin 0) →
        cosine_similarity v1 v2 = .val (.fin 0))
    ∧ (v1.all FV.isFinite = true → v2.all FV.isFinite = true →
        cosine_similarity v1 v2 = .val (.fin 0) ∨
          ∃ d s : ℚ, cosine_similarity v1 v2 = .posQuot d s ∧ 0 < s) := by
  refine ⟨?_, ?_, ?_⟩
  · intro h
    rw [cosine_similarity, if_pos h]
  · intro h1 h2 hz
    have hn1 := all_isFinite_any_isnan v1 h1
    have hn2 := all_isFinite_any_isnan v2 h2
    obtain ⟨q1, hq1, hq1n⟩ := sumSq_fin v1 h1
    obtain ⟨q2, hq2, hq2n⟩ := sumSq_fin v2 h2
    rw [cosine_similarity, if_neg (by rw [hn1, hn2]; simp), hq1, hq2]
    have hzq : q1 = 0 ∨ q2 = 0 := by
      rcases hz with hz | hz
      · left; rw [hq1] at hz; exact (FV.fin.injEq _ _).mp hz
      · right; rw [hq2] at hz; exact (FV.fin.injEq _ _).mp hz
    simp only [divByNormProd]
    rw [if_neg (by push_neg; exact ⟨hq1n, hq2n⟩), if_pos hzq]
  · intro h1 h2
    have hn1 := all_isFinite_any_isnan v1 h1
    have hn2 := all_isFinite_any_isnan v2 h2
    obtain ⟨q1, hq1, hq1n⟩ := sumSq_fin v1 h1
    obtain ⟨q2, hq2, hq2n⟩ := sumSq_fin v2 h2
    obtain ⟨d, hd⟩ := dotFV_fin v1 v2 0 h1 h2
    have hd2 : dotFV v1 v2 = FV.fin d := hd
    rw [cosine_similarity, if_neg (by rw [hn1, hn2]; simp), hq1, hq2, hd2]
    simp only [divByNormProd]
    rw [if_neg (by push_neg; exact ⟨hq1n, hq2n⟩)]
    by_cases hzq : q1 = 0 ∨ q2 = 0
    · rw [if_pos hzq]
      exact Or.inl rfl
    · rw [if_neg hzq]
      push_neg at hzq
      have hp1 : 0 < q1 := lt_of_le_of_ne hq1n (fun hh => hzq.1 hh.symm)
      have hp2 : 0 < q2 := lt_of_le_of_ne hq2n (fun hh => hzq.2 hh.symm)
      exact Or.inr ⟨d, q1 * q2, rfl, mul_pos hp1 hp2⟩

/-- C3 counterexample: the vector [inf] contains a non-finite value, yet
the similarity against [1] is NaN, not 0: the code only checks np.isnan,
so the infinity flows into dot product and norms and inf / inf yields
NaN, which propagates out of the function. -/
theorem cosine_similarity_infinity_counterexample :
    cosine_similarity [FV.inf] [FV.fin 1] = SimResult.val FV.nan
    ∧ SimResult.val FV.nan ≠ SimResult.val (FV.fin 0) := by
  constructor
  · norm_num [cosine_similarity, dotFV, sumSq, fmul, fadd, divByNormProd,
      finOverInf, FV.isnan]
  · simp

/-- Witness for C3: a NaN input gives 0; an all-zero finite vector gives 0;
two finite unit vectors give a validly-formed result. -/
theorem cosine_similarity_safety_witness :
    (([FV.nan].any FV.isnan || [FV.fin 1].any FV.isnan) = true
      ∧ cosine_similarity [FV.nan] [FV.fin 1] = .val (.fin 0))
    ∧ cosine_similarity [FV.fin 0] [FV.fin 1] = .val (.fin 0)
    ∧ (cosine_similarity [FV.fin 1] [FV.fin 1] = .val (.fin 0) ∨
        ∃ d s : ℚ, cosine_similarity [FV.fin 1] [FV.fin 1] = .posQuot d s ∧ 0 < s) :=
  ⟨⟨by decide, (cosine_similarity_safety [FV.nan] [FV.fin 1]).1 (by decide)⟩,
    (cosine_similarity_safety [FV.fin 0] [FV.fin 1]).2.1 (by decide) (by decide)
      (Or.inl (by norm_num [sumSq, fmul, fadd])),
    (cosine_similarity_safety [FV.fin 1] [FV.fin 1]).2.2 (by decide) (by decide)⟩

/-! ### The code-point order on strings (C4) -/

/-- Unfolding of `lexLe` on two non-empty lists. -/
theorem lexLe_cons_iff (x y : Char) (as bs : List Char) :
    lexLe (x :: as) (y :: bs) = true ↔
      x.toNat < y.toNat ∨ (x.toNat = y.toNat ∧ lexLe as bs = true) := by
  by_cases h1 : x.toNat < y.toNat <;> by_cases h2 : x.toNat = y.toNat <;>
    simp [lexLe, h1, h2]

/-- The code-point order is total. -/
theorem lexLe_total : ∀ a b : List Char, lexLe a b = true ∨ lexLe b a = true := by
  intro a
  induction a with
  | nil => exact fun b => Or.inl rfl
  | cons x as ih =>
    intro b
    cases b with
    | nil => exact Or.inr rfl
    | cons y bs =>
      rw [lexLe_cons_iff, lexLe_cons_iff]
      rcases Nat.lt_trichotomy x.toNat y.toNat with h | h | h
      · exact Or.inl (Or.inl h)
      · rcases ih bs with hr | hr
        · exact Or.inl (Or.inr ⟨h, hr⟩)
        · exact Or.inr (Or.inr ⟨h.symm, hr⟩)
      · exact Or.inr (Or.inl h)

/-- The code-point order is transitive. -/
theorem lexLe_trans : ∀ a b c : List Char,
    lexLe a b = true → lexLe b c = true → lexLe a c = true := by
  intro a
  induction a with
  | nil => intro b c _ _; rfl
  | cons x as ih =>
    intro b c hab hbc
    cases b with
    | nil => simp [lexLe] at hab
    | cons y bs =>
      cases c with
      | nil => simp [lexLe] at hbc
      | cons z cs =>
        rw [lexLe_cons_iff] at hab hbc ⊢
        rcases hab with h | ⟨he, hr⟩ <;> rcases hbc with h2 | ⟨he2, hr2⟩
        · exact Or.inl (h.trans h2)
        · exact Or.inl (he2 ▸ h)
        · exact Or.inl (he ▸ h2)
        · exact Or.inr ⟨he.trans he2, ih bs cs hr hr2⟩

/-- The code-point order is antisymmetric. -/
theorem lexLe_antisymm : ∀ a b : List Char,
    lexLe a b = true → lexLe b a = true → a = b := by
  intro a
  induction a with
  | nil =>
    intro b h1 h2
    cases b with
    | nil => rfl
    | cons y bs => simp [lexLe] at h2
  | cons x as ih =>
    intro b h1 h2
    cases b with
    | nil => simp [lexLe] at h1
    | cons y bs =>
      rw [lexLe_cons_iff] at h1 h2
      rcases h1 with h | ⟨he, hr⟩
      · rcases h2 with h2 | ⟨he2, _⟩
        · exact absurd (h.trans h2) (lt_irrefl _)
        · exact absurd (he2 ▸ h) (lt_irrefl _)
      · rcases h2 with h2 | ⟨_, hr2⟩
        · exact absurd (he ▸ h2) (lt_irrefl _)
        · have hxy : x = y := Char.eq_of_val_eq (UInt32.ext he)
          exact hxy ▸ congrArg (List.cons x) (ih bs hr hr2)

instance : IsTotal String strLe :=
  ⟨fun a b => lexLe_total a.data b.data⟩

instance : IsTrans String strLe :=
  ⟨fun a b c => lexLe_trans a.data b.data c.data⟩

instance : IsAntisymm String strLe :=
  ⟨fun a b h1 h2 => by
    cases a with
    | mk da =>
      cases b with
      | mk db => exact congrArg String.mk (lexLe_antisymm da db h1 h2)⟩

/-- Sorting is invariant under permutation of the input (two sorted
permutations of the same list are equal). -/
theorem sortedIds_perm_eq (ids ids2 : List String) (hperm : ids.Perm ids2) :
    sortedIds ids2 = sortedIds ids :=
  List.eq_of_perm_of_sorted
    (((List.perm_insertionSort strLe ids2).trans hperm.symm).trans
      (List.perm_insertionSort strLe ids).symm)
    (List.sorted_insertionSort strLe ids2)
    (List.sorted_insertionSort strLe ids)

/-- C4: writing an answer under one ordering of the paper ids and reading
it back under any permutation of those ids retrieves that answer: the
answer-cache key is built from the lexicographically sorted id list on
both paths, so it depends only on the question and the set of ids. -/
theorem answer_cache_key_order_independent (hkey : String → String)
    (c : ResultCache) (question answer : String) (ids ids2 : List String)
    (hperm : ids.Perm ids2) :
    get_cached_answer hkey (cache_answer hkey c question ids answer)
      question ids2 = some answer := by
  have hinput : answerCacheInput question ids2 = answerCacheInput question ids := by
    rw [answerCacheInput, answerCacheInput, sortedIds_perm_eq ids ids2 hperm]
  simp [get_cached_answer, cache_answer, hinput]

def emptyCache : ResultCache := ⟨fun _ => none, fun _ => none⟩

def idKey : String → String := fun s => s

def idA : String := "a"

def idB : String := "b"

def qFix : String := "q"

def ansFix : String := "ans"

/-- Witness for C4: storing under [b, a] and reading under [a, b]. -/
theorem answer_cache_key_order_independent_witness :
    ([idB, idA].Perm [idA, idB])
    ∧ get_cached_answer idKey
        (cache_answer idKey emptyCache qFix [idB, idA] ansFix) qFix [idA, idB]
      = some ansFix :=
  ⟨by decide, answer_cache_key_order_independent idKey emptyCache qFix ansFix
      [idB, idA] [idA, idB] (by decide)⟩

/-! ### Paper cache round trip (C5) -/

/-- A paper that carries an embedding vector. -/
def embPaper : Paper :=
  { title := "t", abstract := "a", year := 2020, authors := [],
    citation_count := 0, url := "u", paper_id := "x", tldr := none,
    embedding := some [FV.fin 1], relevance_score := 0 }

/-- C5 counterexample: the serializer in cache_papers writes every field
except the embedding, so a paper whose embedding is set does not survive
the round trip: get returns it with embedding = None. -/
theorem papers_roundtrip_counterexample :
    get_cached_papers idKey (cache_papers idKey emptyCache qFix [embPaper]) qFix
      ≠ some [embPaper] := by
  decide

/-- C5 amended: put_papers followed by get_papers for the same query
returns the papers in their original order with title, abstract, year,
authors, citation_count, url, paper_id, tldr and relevance_score preserved
field for field, but with the embedding dropped (it is not serialized and
reads back as None). -/
theorem papers_roundtrip_amended :
    (∀ (hkey : String → String) (c : ResultCache) (q : String) (P : List Paper),
        get_cached_papers hkey (cache_papers hkey c q P) q
          = some (P.map serializePaper))
    ∧ (∀ p : Paper,
        (serializePaper p).title = p.title
        ∧ (serializePaper p).abstract = p.abstract
        ∧ (serializePaper p).year = p.year
        ∧ (serializePaper p).authors = p.authors
        ∧ (serializePaper p).citation_count = p.citation_count
        ∧ (serializePaper p).url = p.url
        ∧ (serializePaper p).paper_id = p.paper_id
        ∧ (serializePaper p).tldr = p.tldr
        ∧ (serializePaper p).relevance_score = p.relevance_score
        ∧ (serializePaper p).embedding = none) := by
  constructor
  · intro hkey c q P
    simp [get_cached_papers, cache_papers]
  · intro p
    exact ⟨rfl, rfl, rfl, rfl, rfl, rfl, rfl, rfl, rfl, rfl⟩

/-! ### The retrieval loop: what gets cached (C6) -/

/-- The new_papers accumulator of the fresh-fetch fold only grows, and what
it gains is a sublist of the fetched papers. -/
theorem foldl_addFresh_new (l : List Paper) : ∀ (st : RetrievalState) (acc : List Paper),
    ∃ extra, (l.foldl addFreshPaper (st, acc)).2 = acc ++ extra ∧ extra.Sublist l := by
  induction l with
  | nil => intro st acc; exact ⟨[], by simp, List.nil_sublist _⟩
  | cons p t ih =>
    intro st acc
    rw [List.foldl_cons]
    simp only [addFreshPaper]
    split_ifs with h1 h2
    · obtain ⟨extra, he, hs⟩ := ih _ (acc ++ [p])
      exact ⟨p :: extra, by rw [he, List.append_assoc]; rfl,
        List.cons_sublist_cons.mpr hs⟩
    · obtain ⟨extra, he, hs⟩ := ih _ (acc ++ [p])
      exact ⟨p :: extra, by rw [he, List.append_assoc]; rfl,
        List.cons_sublist_cons.mpr hs⟩
    · obtain ⟨extra, he, hs⟩ := ih st acc
      exact ⟨extra, he, hs.cons p⟩

/-- The fresh-fetch fold never touches the cache component. -/
theorem foldl_addFresh_cache (l : List Paper) : ∀ (st : RetrievalState) (acc : List Paper),
    (l.foldl addFreshPaper (st, acc)).1.cache = st.cache := by
  induction l with
  | nil => intro st acc; rfl
  | cons p t ih =>
    intro st acc
    rw [List.foldl_cons]
    simp only [addFreshPaper]
    split_ifs with h1 h2
    · exact ih _ _
    · exact ih _ _
    · exact ih st acc

/-- The fresh-fetch fold only appends to the seen-id set. -/
theorem foldl_addFresh_seen (l : List Paper) : ∀ (st : RetrievalState) (acc : List Paper),
    ∃ ext, (l.foldl addFreshPaper (st, acc)).1.seen_paper_ids
      = st.seen_paper_ids ++ ext := by
  induction l with
  | nil => intro st acc; exact ⟨[], by simp⟩
  | cons p t ih =>
    intro st acc
    rw [List.foldl_cons]
    simp only [addFreshPaper]
    split_ifs with h1 h2
    · obtain ⟨ext, he⟩ := ih _ (acc ++ [p])
      exact ⟨p.paper_id :: ext, by rw [he, List.append_assoc]; rfl⟩
    · exact ih _ _
    · exact ih st acc

/-- Any paper collected into new_papers beyond the initial accumulator was
either carrying the empty id or an id unseen at the start of the fold. -/
theorem foldl_addFresh_mem_new (l : List Paper) :
    ∀ (st : RetrievalState) (acc : List Paper) (p : Paper),
    p ∈ (l.foldl addFreshPaper (st, acc)).2 →
    p ∈ acc ∨ p.paper_id = "" ∨ p.paper_id ∉ st.seen_paper_ids := by
  induction l with
  | nil => intro st acc p h; exact Or.inl h
  | cons x t ih =>
    intro st acc p h
    rw [List.foldl_cons] at h
    simp only [addFreshPaper] at h
    split_ifs at h with h1 h2
    · rcases ih _ _ p h with hmem | hid | hseen
      · rw [List.mem_append] at hmem
        rcases hmem with hm | hm
        · exact Or.inl hm
        · have hpx : p = x := by simpa using hm
          subst hpx
          exact Or.inr (Or.inr h1.2)
      · exact Or.inr (Or.inl hid)
      · refine Or.inr (Or.inr fun hc => hseen ?_)
        exact List.mem_append.mpr (Or.inl hc)
    · rcases ih _ _ p h with hmem | hid | hseen
      · rw [List.mem_append] at hmem
        rcases hmem with hm | hm
        · exact Or.inl hm
        · have hpx : p = x := by simpa using hm
          subst hpx
          exact Or.inr (Or.inl h2.1)
      · exact Or.inr (Or.inl hid)
      · exact Or.inr (Or.inr hseen)
    · rcases ih st acc p h with hmem | hid | hseen
      · exact Or.inl hmem
      · exact Or.inr (Or.inl hid)
      · exact Or.inr (Or.inr hseen)

/-- On a papers-cache miss, processQuery takes the fresh-fetch branch. -/
theorem processQuery_miss (hkey : String → String) (uc uk : Bool)
    (search : String → List Paper) (st : RetrievalState) (q : String)
    (hmiss : get_cached_papers hkey st.cache q = none) :
    processQuery hkey uc uk search st q =
      (if uk && !((search q).foldl addFreshPaper (st, [])).2.isEmpty then
        { ((search q).foldl addFreshPaper (st, [])).1 with
            cache := cache_papers hkey
              ((search q).foldl addFreshPaper (st, [])).1.cache q
              ((search q).foldl addFreshPaper (st, [])).2 }
      else ((search q).foldl addFreshPaper (st, [])).1) := by
  have hscrut : (if uc && uk then get_cached_papers hkey st.cache q else none)
      = none := by
    cases uc <;> cases uk <;> simp [hmiss]
  unfold processQuery
  rw [hscrut]

/-- C6 amended: when a query misses the papers cache, the entry the loop
writes under that query holds exactly the papers from this fetch that were
newly accepted into the merged set (a sublist of the search results,
omitting every paper whose non-empty id was already seen), serialized in
order; when no paper is new, nothing is written at all.  The original
claim — that the entry holds all records the search returned — fails. -/
theorem cache_write_new_papers_only (hkey : String → String) (use_cached : Bool)
    (search : String → List Paper) (st : RetrievalState) (q : String)
    (hmiss : get_cached_papers hkey st.cache q = none) :
    ((search q).foldl addFreshPaper (st, [])).2.Sublist (search q)
    ∧ (∀ p ∈ search q, p.paper_id ≠ "" → p.paper_id ∈ st.seen_paper_ids →
        p ∉ ((search q).foldl addFreshPaper (st, [])).2)
    ∧ (processQuery hkey use_cached true search st q).cache.papersNs =
        (if ((search q).foldl addFreshPaper (st, [])).2.isEmpty
         then st.cache.papersNs
         else fun k =>
           if k = hkey q
           then some ((((search q).foldl addFreshPaper (st, [])).2).map serializePaper)
           else st.cache.papersNs k) := by
  refine ⟨?_, ?_, ?_⟩
  · obtain ⟨extra, he, hs⟩ := foldl_addFresh_new (search q) st []
    rw [he]
    simpa using hs
  · intro p _ hid hseen hmem
    rcases foldl_addFresh_mem_new (search q) st [] p hmem with hm | hm | hm
    · simp at hm
    · exact hid hm
    · exact hm hseen
  · rw [processQuery_miss hkey use_cached true search st q hmiss]
    have hc : ((search q).foldl addFreshPaper (st, [])).1.cache = st.cache :=
      foldl_addFresh_cache _ _ _
    rcases hemp : ((search q).foldl addFreshPaper (st, [])).2.isEmpty with _ | _
    · simp [cache_papers, hc]
    · simp [hc]

/-- A paper used by the C6 and C10 fixtures. -/
def dupPaper : Paper :=
  { title := "t", abstract := "x", year := 2021, authors := [],
    citation_count := 3, url := "", paper_id := "x", tldr := none,
    embedding := none, relevance_score := 0 }

def q1 : String := "q1"

def q2 : String := "q2"

/-- A search oracle returning the same paper for every query. -/
def searchDup : String → List Paper := fun _ => [dupPaper]

/-- C6 counterexample: two queries whose searches both return the same
paper.  The paper is accepted while processing q1; while processing q2
(also a cache miss) it is a duplicate, new_papers stays empty, and NO
cache entry at all is written for q2 — although the search returned one
paper for it.  A later run with query q2 therefore does not read back what
the search API returned. -/
theorem papers_cache_write_counterexample :
    searchDup q2 = [dupPaper]
    ∧ (retrieve idKey true true searchDup [q1, q2] emptyCache).cache.papersNs
        (idKey q2) = none := by
  constructor
  · rfl
  · decide

/-- Witness for C6: a miss on the empty cache; the returned paper is new,
and a paper whose id was already seen is excluded from the written list. -/
theorem cache_write_new_papers_only_witness :
    get_cached_papers idKey emptyCache q1 = none
    ∧ ((searchDup q1).foldl addFreshPaper (⟨[], [], emptyCache⟩, [])).2.Sublist
        (searchDup q1)
    ∧ dupPaper ∈ searchDup q1
    ∧ dupPaper.paper_id ≠ ""
    ∧ dupPaper.paper_id ∈ (⟨[], ["x"], emptyCache⟩ : RetrievalState).seen_paper_ids
    ∧ dupPaper ∉
        ((searchDup q1).foldl addFreshPaper ((⟨[], ["x"], emptyCache⟩ : RetrievalState), [])).2 :=
  ⟨rfl,
    (cache_write_new_papers_only idKey true searchDup ⟨[], [], emptyCache⟩ q1 rfl).1,
    by decide, by decide, by decide,
    (cache_write_new_papers_only idKey true searchDup ⟨[], ["x"], emptyCache⟩ q1 rfl).2.1
      dupPaper (by decide) (by decide) (by decide)⟩

/-! ### Deduplication identity in the retrieval loop (C7) -/

/-- Two merged papers never share a non-empty paper_id. -/
def distinctIds (p q : Paper) : Prop :=
  p.paper_id = "" ∨ p.paper_id ≠ q.paper_id

/-- The loop invariant: the merged papers are pairwise id-distinct, and
every merged paper with a non-empty id has its id recorded as seen. -/
def GoodState (st : RetrievalState) : Prop :=
  List.Pairwise distinctIds st.all_papers
  ∧ ∀ p ∈ st.all_papers, p.paper_id ≠ "" → p.paper_id ∈ st.seen_paper_ids

/-- The cache-hit merge step preserves the invariant. -/
theorem addCachedPaper_good (st : RetrievalState) (p : Paper)
    (hg : GoodState st) : GoodState (addCachedPaper st p) := by
  simp only [addCachedPaper]
  split_ifs with h
  · exact hg
  · constructor
    · rw [List.pairwise_append]
      refine ⟨hg.1, List.pairwise_singleton _ _, ?_⟩
      intro a ha b hb
      have hb2 : b = p := by simpa using hb
      subst hb2
      by_cases haid : a.paper_id = ""
      · exact Or.inl haid
      · refine Or.inr fun heq => h ?_
        rw [← heq]
        exact hg.2 a ha haid
    · intro r hr hrid
      rw [List.mem_append] at hr
      rcases hr with hr | hr
      · exact List.mem_append.mpr (Or.inl (hg.2 r hr hrid))
      · have hb2 : r = p := by simpa using hr
        subst hb2
        exact List.mem_append.mpr (Or.inr (by simp))

/-- The fresh-fetch merge step preserves the invariant. -/
theorem addFreshPaper_good (st : RetrievalState) (acc : List Paper) (p : Paper)
    (hg : GoodState st) : GoodState (addFreshPaper (st, acc) p).1 := by
  simp only [addFreshPaper]
  split_ifs with h1 h2
  · constructor
    · rw [List.pairwise_append]
      refine ⟨hg.1, List.pairwise_singleton _ _, ?_⟩
      intro a ha b hb
      have hb2 : b = p := by simpa using hb
      subst hb2
      by_cases haid : a.paper_id = ""
      · exact Or.inl haid
      · refine Or.inr fun heq => h1.2 ?_
        rw [← heq]
        exact hg.2 a ha haid
    · intro r hr hrid
      rw [List.mem_append] at hr
      rcases hr with hr | hr
      · exact List.mem_append.mpr (Or.inl (hg.2 r hr hrid))
      · have hb2 : r = p := by simpa using hr
        subst hb2
        exact List.mem_append.mpr (Or.inr (by simp))
  · constructor
    · rw [List.pairwise_append]
      refine ⟨hg.1, List.pairwise_singleton _ _, ?_⟩
      intro a ha b hb
      have hb2 : b = p := by simpa using hb
      subst hb2
      by_cases haid : a.paper_id = ""
      · exact Or.inl haid
      · exact Or.inr (by rw [h2.1]; exact haid)
    · intro r hr hrid
      rw [List.mem_append] at hr
      rcases hr with hr | hr
      · exact hg.2 r hr hrid
      · have hb2 : r = p := by simpa using hr
        subst hb2
        exact absurd h2.1 hrid
  · exact hg

/-- The cache-hit fold preserves the invariant. -/
theorem foldl_addCached_good (l : List Paper) :
    ∀ st, GoodState st → GoodState (l.foldl addCachedPaper st) := by
  induction l with
  | nil => exact fun st h => h
  | cons p t ih => exact fun st h => ih _ (addCachedPaper_good st p h)

/-- The fresh-fetch fold preserves the invariant. -/
theorem foldl_addFresh_good (l : List Paper) :
    ∀ (st : RetrievalState) (acc : List Paper),
    GoodState st → GoodState (l.foldl addFreshPaper (st, acc)).1 := by
  induction l with
  | nil => exact fun st acc h => h
  | cons p t ih =>
    intro st acc h
    rw [List.foldl_cons]
    exact ih (addFreshPaper (st, acc) p).1 (addFreshPaper (st, acc) p).2
      (addFreshPaper_good st acc p h)

/-- A single query pass preserves the invariant. -/
theorem processQuery_good (hkey : String → String) (uc uk : Bool)
    (search : String → List Paper) (st : RetrievalState) (q : String)
    (hg : GoodState st) : GoodState (processQuery hkey uc uk search st q) := by
  unfold processQuery
  split
  · exact foldl_addCached_good _ _ hg
  · dsimp only
    split_ifs with hw
    · exact foldl_addFresh_good _ _ _ hg
    · exact foldl_addFresh_good _ _ _ hg

/-- The whole retrieval loop preserves the invariant. -/
theorem foldl_processQuery_good (hkey : String → String) (uc uk : Bool)
    (search : String → List Paper) (queries : List String) :
    ∀ st, GoodState st →
    GoodState (queries.foldl (processQuery hkey uc uk search) st) := by
  induction queries with
  | nil => exact fun st h => h
  | cons q t ih =>
    exact fun st h => ih _ (processQuery_good hkey uc uk search st q h)

/-- C7 amended: throughout the retrieval loop the merged set never holds
two papers with the same non-empty paper_id.  In the fresh-fetch branch an
empty-id paper is dropped exactly when a paper with its exact title is
already merged.  (In the cache-hit branch, however, deduplication is by
paper_id alone — including the empty id — so a cache-served empty-id paper
can be dropped without any title match; see the counterexample.) -/
theorem merged_set_identity (hkey : String → String) (use_cached use_cache : Bool)
    (search : String → List Paper) (queries : List String) (c : ResultCache) :
    List.Pairwise distinctIds
      (retrieve hkey use_cached use_cache search queries c).all_papers
    ∧ (∀ (st : RetrievalState) (acc : List Paper) (p : Paper),
        p.paper_id = "" → p.title ∉ st.all_papers.map Paper.title →
        (addFreshPaper (st, acc) p).1.all_papers = st.all_papers ++ [p])
    ∧ (∀ (st : RetrievalState) (acc : List Paper) (p : Paper),
        p.paper_id = "" → (addFreshPaper (st, acc) p).1.all_papers = st.all_papers →
        p.title ∈ st.all_papers.map Paper.title) := by
  refine ⟨?_, ?_, ?_⟩
  · exact (foldl_processQuery_good hkey use_cached use_cache search queries
      ⟨[], [], c⟩ ⟨List.Pairwise.nil, by simp⟩).1
  · intro st acc p hid htitle
    simp only [addFreshPaper]
    rw [if_neg (fun h => h.1 hid), if_pos ⟨hid, htitle⟩]
  · intro st acc p hid heq
    by_contra htitle
    have hadd : (addFreshPaper (st, acc) p).1.all_papers = st.all_papers ++ [p] := by
      simp only [addFreshPaper]
      rw [if_neg (fun h => h.1 hid), if_pos ⟨hid, htitle⟩]
    rw [hadd] at heq
    simpa using congrArg List.length heq

/-- A cache-served paper with empty id, title ta. -/
def cachedA : Paper :=
  { title := "ta", abstract := "x", year := 2021, authors := [],
    citation_count := 0, url := "", paper_id := "", tldr := none,
    embedding := none, relevance_score := 0 }

/-- A cache-served paper with empty id, title tb. -/
def cachedB : Paper :=
  { title := "tb", abstract := "x", year := 2021, authors := [],
    citation_count := 0, url := "", paper_id := "", tldr := none,
    embedding := none, relevance_score := 0 }

/-- A cache holding, for query q1, two empty-id papers with distinct
titles (such entries arise because the fresh branch accepts and caches
empty-id papers). -/
def cacheQ1 : ResultCache :=
  ⟨fun k => if k = q1 then some [cachedA, cachedB] else none, fun _ => none⟩

/-- C7 counterexample: serving q1 from the cache, the first empty-id paper
is accepted and records the empty string as seen; the second empty-id
paper is then dropped by the id check although no paper with its title is
in the merged set — refuting that an empty-id paper is dropped only on a
title match. -/
theorem dedup_cached_empty_id_counterexample :
    (retrieve idKey true true (fun _ => []) [q1] cacheQ1).all_papers = [cachedA]
    ∧ cachedB ∉ (retrieve idKey true true (fun _ => []) [q1] cacheQ1).all_papers
    ∧ ∀ p ∈ (retrieve idKey true true (fun _ => []) [q1] cacheQ1).all_papers,
        p.title ≠ cachedB.title := by
  decide

/-- Witness for C7: the pairwise-id invariant on a concrete run, a fresh
empty-id paper accepted when its title is new, and the title-match
conclusion when a fresh empty-id paper is dropped. -/
theorem merged_set_identity_witness :
    List.Pairwise distinctIds
      (retrieve idKey true true searchDup [q1] emptyCache).all_papers
    ∧ (addFreshPaper ((⟨[], [], emptyCache⟩ : RetrievalState), []) cachedA).1.all_papers
        = [] ++ [cachedA]
    ∧ cachedA.title ∈
        (⟨[cachedA], [], emptyCache⟩ : RetrievalState).all_papers.map Paper.title :=
  ⟨(merged_set_identity idKey true true searchDup [q1] emptyCache).1,
    (merged_set_identity idKey true true searchDup [q1] emptyCache).2.1
      ⟨[], [], emptyCache⟩ [] cachedA (by decide) (by decide),
    (merged_set_identity idKey true true searchDup [q1] emptyCache).2.2
      ⟨[cachedA], [], emptyCache⟩ [] cachedA (by decide) (by decide)⟩

/-! ### The pipeline result shape (C9) and the answer-cache frame (C10) -/

/-- The cache-hit fold never touches the cache component. -/
theorem foldl_addCached_cache (l : List Paper) : ∀ st : RetrievalState,
    (l.foldl addCachedPaper st).cache = st.cache := by
  induction l with
  | nil => intro st; rfl
  | cons p t ih =>
    intro st
    rw [List.foldl_cons, ih (addCachedPaper st p)]
    simp only [addCachedPaper]
    split_ifs with h
    · rfl
    · rfl

/-- A single query pass never touches the answers namespace (the retrieval
loop writes only to the papers namespace). -/
theorem processQuery_answersNs (hkey : String → String) (uc uk : Bool)
    (search : String → List Paper) (st : RetrievalState) (q : String) :
    (processQuery hkey uc uk search st q).cache.answersNs = st.cache.answersNs := by
  unfold processQuery
  split
  · rw [foldl_addCached_cache]
  · dsimp only
    split_ifs with hw
    · show ((search q).foldl addFreshPaper (st, [])).1.cache.answersNs
        = st.cache.answersNs
      rw [foldl_addFresh_cache]
    · show ((search q).foldl addFreshPaper (st, [])).1.cache.answersNs
        = st.cache.answersNs
      rw [foldl_addFresh_cache]

/-- The whole retrieval loop leaves the answers namespace unchanged. -/
theorem retrieve_answersNs (hkey : String → String) (uc uk : Bool)
    (search : String → List Paper) (queries : List String) :
    ∀ st : RetrievalState,
    (queries.foldl (processQuery hkey uc uk search) st).cache.answersNs
      = st.cache.answersNs := by
  induction queries with
  | nil => intro st; rfl
  | cons q t ih =>
    intro st
    rw [List.foldl_cons, ih, processQuery_answersNs]

/-- Oracles whose searches return nothing. -/
def emptyOracles : Oracles :=
  { genQueries := fun _ => [q1], search := fun _ => [], simOf := fun _ => 0,
    embOf := fun _ => [], detect := fun _ => { analysis := "" },
    synthesize := fun _ _ _ => ansFix }

/-- C9 counterexample: when no papers survive retrieval, the returned dict
has the fixed answer and zero counts, but carries NO from_cache key at
all (modelled as none) — the claim that from_cache is present in every
result is refuted by the empty-result short-circuit. -/
theorem short_circuit_from_cache_counterexample :
    (answer_question idKey emptyOracles true qFix true 8 true emptyCache).1.from_cache
      = none
    ∧ (answer_question idKey emptyOracles true qFix true 8 true emptyCache).1.answer
        = noPapersMessage
    ∧ (answer_question idKey emptyOracles true qFix true 8 true
        emptyCache).1.papers_analyzed = 0 :=
  ⟨rfl, rfl, rfl⟩

/-- C9 amended: every result carries the question and the queries used;
the empty-result short-circuit returns exactly the fixed message, all
counts 0, no papers, no contradictions — and no from_cache key; the other
two return paths do set from_cache (to true on the cached-answer path,
false on the fresh path). -/
theorem pipeline_result_shape (hkey : String → String) (o : Oracles)
    (use_cache : Bool) (q : String) (dc : Bool) (k : ℕ) (uc : Bool)
    (c : ResultCache) :
    ((answer_question hkey o use_cache q dc k uc c).1.question = q
      ∧ (answer_question hkey o use_cache q dc k uc c).1.queries_used
          = o.genQueries q)
    ∧ ((retrieve hkey uc use_cache o.search (o.genQueries q) c).all_papers = [] →
        (answer_question hkey o use_cache q dc k uc c).1 =
          { question := q, queries_used := o.genQueries q, papers_analyzed := 0,
            papers_used := 0, papers := [], contradictions := none,
            answer := noPapersMessage, from_cache := none })
    ∧ ((retrieve hkey uc use_cache o.search (o.genQueries q) c).all_papers ≠ [] →
        (answer_question hkey o use_cache q dc k uc c).1.from_cache = some true
        ∨ (answer_question hkey o use_cache q dc k uc c).1.from_cache
            = some false) := by
  refine ⟨?_, ?_, ?_⟩
  · unfold answer_question
    dsimp only
    split
    · exact ⟨rfl, rfl⟩
    · split
      · exact ⟨rfl, rfl⟩
      · exact ⟨rfl, rfl⟩
  · intro hnil
    have hemp : (retrieve hkey uc use_cache o.search
        (o.genQueries q) c).all_papers.isEmpty = true := by
      rw [hnil]; rfl
    unfold answer_question
    dsimp only
    rw [if_pos hemp]
  · intro hne
    have hemp : ¬ ((retrieve hkey uc use_cache o.search
        (o.genQueries q) c).all_papers.isEmpty = true) := by
      rw [List.isEmpty_iff]; exact hne
    unfold answer_question
    dsimp only
    rw [if_neg hemp]
    split
    · exact Or.inl rfl
    · exact Or.inr rfl

/-- Oracles whose single search returns one paper with an empty id. -/
def emptyIdOracles : Oracles :=
  { genQueries := fun _ => [q1], search := fun _ => [cachedA], simOf := fun _ => 0,
    embOf := fun _ => [], detect := fun _ => { analysis := "" },
    synthesize := fun _ _ _ => ansFix }

/-- Witness for C9: the short-circuit at concrete oracles with no search
results, and the fresh path at oracles producing one paper. -/
theorem pipeline_result_shape_witness :
    (retrieve idKey true true emptyOracles.search (emptyOracles.genQueries qFix)
        emptyCache).all_papers = []
    ∧ (answer_question idKey emptyOracles true qFix true 8 true emptyCache).1 =
        { question := qFix, queries_used := emptyOracles.genQueries qFix,
          papers_analyzed := 0, papers_used := 0, papers := [],
          contradictions := none, answer := noPapersMessage, from_cache := none }
    ∧ ((answer_question idKey emptyIdOracles true qFix true 1 true
          emptyCache).1.from_cache = some true
        ∨ (answer_question idKey emptyIdOracles true qFix true 1 true
            emptyCache).1.from_cache = some false) :=
  ⟨rfl,
    (pipeline_result_shape idKey emptyOracles true qFix true 8 true emptyCache).2.1 rfl,
    (pipeline_result_shape idKey emptyIdOracles true qFix true 1 true emptyCache).2.2
      (by decide)⟩

/-- C10: when every top-ranked paper after reranking has an empty
paper_id, the answer-cache key list is empty, so the answer cache is
neither consulted nor written: the run returns from_cache = false, the
answers namespace of the final cache equals the input one, and the answer
is a fresh synthesis over the top papers (with contradictions computed as
usual) — even though caching is fully enabled. -/
theorem empty_id_top_papers_fresh_synthesis (hkey : String → String) (o : Oracles)
    (q : String) (dc : Bool) (k : ℕ) (c : ResultCache)
    (hne : (retrieve hkey true true o.search (o.genQueries q) c).all_papers ≠ [])
    (hids : ∀ p ∈ rerank_papers o.simOf o.embOf
        (retrieve hkey true true o.search (o.genQueries q) c).all_papers k,
        p.paper_id = "") :
    (answer_question hkey o true q dc k true c).1.from_cache = some false
    ∧ (answer_question hkey o true q dc k true c).2.answersNs = c.answersNs
    ∧ (answer_question hkey o true q dc k true c).1.answer =
        o.synthesize q
          (rerank_papers o.simOf o.embOf
            (retrieve hkey true true o.search (o.genQueries q) c).all_papers k)
          (if dc = true ∧ 2 ≤ (rerank_papers o.simOf o.embOf
                (retrieve hkey true true o.search (o.genQueries q) c).all_papers
                  k).length
           then some (o.detect (rerank_papers o.simOf o.embOf
                (retrieve hkey true true o.search (o.genQueries q) c).all_papers k))
           else none) := by
  have hemp : ¬ ((retrieve hkey true true o.search
      (o.genQueries q) c).all_papers.isEmpty = true) := by
    rw [List.isEmpty_iff]; exact hne
  have hperids : (rerank_papers o.simOf o.embOf
      (retrieve hkey true true o.search (o.genQueries q) c).all_papers k).filterMap
        (fun p => if p.paper_id = "" then none else some p.paper_id) = [] := by
    rw [List.filterMap_eq_nil_iff]
    intro p hp
    rw [if_pos (hids p hp)]
  unfold answer_question
  dsimp only
  rw [if_neg hemp, hperids]
  refine ⟨rfl, ?_, rfl⟩
  show (retrieve hkey true true o.search (o.genQueries q) c).cache.answersNs
    = c.answersNs
  exact retrieve_answersNs hkey true true o.search (o.genQueries q) ⟨[], [], c⟩

/-- Witness for C10: a run whose single retrieved paper has an empty id:
the result is freshly synthesized and the answers namespace is untouched. -/
theorem empty_id_top_papers_fresh_synthesis_witness :
    (retrieve idKey true true emptyIdOracles.search (emptyIdOracles.genQueries qFix)
        emptyCache).all_papers ≠ []
    ∧ (∀ p ∈ rerank_papers emptyIdOracles.simOf emptyIdOracles.embOf
          (retrieve idKey true true emptyIdOracles.search
            (emptyIdOracles.genQueries qFix) emptyCache).all_papers 1,
        p.paper_id = "")
    ∧ (answer_question idKey emptyIdOracles true qFix true 1 true
        emptyCache).1.from_cache = some false
    ∧ (answer_question idKey emptyIdOracles true qFix true 1 true
        emptyCache).2.answersNs = emptyCache.answersNs :=
  ⟨by decide, by decide,
    (empty_id_top_papers_fresh_synthesis idKey emptyIdOracles qFix true 1 emptyCache
      (by decide) (by decide)).1,
    (empty_id_top_papers_fresh_synthesis idKey emptyIdOracles qFix true 1 emptyCache
      (by decide) (by decide)).2.1⟩

/-! ### The search filter and its error handling (C8) -/

/-- C8: search_papers returns the empty list on a network failure and on
any non-200 status; every returned paper has an abstract strictly longer
than 100 characters; and a record whose abstract is at most 100
characters (for example 50) is excluded by the conversion. -/
theorem search_papers_filter_and_errors :
    search_papers HttpOutcome.networkError = []
    ∧ (∀ (s : ℤ) (data : List RawRecord), s ≠ 200 →
        search_papers (HttpOutcome.response s data) = [])
    ∧ (∀ (out : HttpOutcome) (p : Paper), p ∈ search_papers out →
        100 < p.abstract.length)
    ∧ (∀ (item : RawRecord) (ab : String), item.abstract = some ab →
        ¬ 100 < ab.length → toPaper item = none) := by
  refine ⟨rfl, ?_, ?_, ?_⟩
  · intro s data hs
    show (if s ≠ 200 then [] else data.filterMap toPaper) = []
    rw [if_pos hs]
  · intro out p hp
    cases out with
    | networkError => simp [search_papers] at hp
    | response s data =>
      by_cases hs : s ≠ 200
      · rw [show search_papers (HttpOutcome.response s data)
            = (if s ≠ 200 then [] else data.filterMap toPaper) from rfl,
          if_pos hs] at hp
        simp at hp
      · rw [show search_papers (HttpOutcome.response s data)
            = (if s ≠ 200 then [] else data.filterMap toPaper) from rfl,
          if_neg hs] at hp
        rw [List.mem_filterMap] at hp
        obtain ⟨item, _, hitem⟩ := hp
        cases habs : item.abstract with
        | none => unfold toPaper at hitem; rw [habs] at hitem; exact absurd hitem (by simp)
        | some ab =>
          unfold toPaper at hitem
          rw [habs] at hitem
          dsimp only at hitem
          split_ifs at hitem with hlen
          have hpe := (Option.some.injEq _ _).mp hitem
          rw [← hpe]
          exact hlen
  · intro item ab habs hlen
    unfold toPaper
    rw [habs]
    dsimp only
    rw [if_neg hlen]

/-- An abstract longer than 100 characters. -/
def longAbstract : String :=
  "This abstract is comfortably long enough to pass the hard one-hundred-character minimum length filter that search_papers applies to every raw record."

/-- An abstract of well under 100 characters. -/
def shortAbstract : String :=
  "A fifty character abstract, give or take a few."

/-- A raw record that passes the abstract filter. -/
def rawGood : RawRecord :=
  { title := some "T", abstract := some longAbstract, paperId := some "x" }

/-- A raw record with a too-short abstract. -/
def rawShort : RawRecord :=
  { abstract := some shortAbstract }

/-- The Paper built from rawGood, with the item.get defaults applied. -/
def goodPaper : Paper :=
  { title := "T", abstract := longAbstract, year := 0, authors := [],
    citation_count := 0, url := "", paper_id := "x", tldr := none,
    embedding := none, relevance_score := 0 }

set_option maxRecDepth 8000 in
/-- Witness for C8: status 404 yields no papers, the long-abstract record
is returned and satisfies the bound, the 50-character record is dropped. -/
theorem search_papers_filter_and_errors_witness :
    (404 : ℤ) ≠ 200
    ∧ search_papers (HttpOutcome.response 404 [rawGood]) = []
    ∧ goodPaper ∈ search_papers (HttpOutcome.response 200 [rawGood])
    ∧ 100 < goodPaper.abstract.length
    ∧ rawShort.abstract = some shortAbstract
    ∧ ¬ 100 < shortAbstract.length
    ∧ toPaper rawShort = none :=
  ⟨by decide,
    search_papers_filter_and_errors.2.1 404 [rawGood] (by decide),
    by decide,
    search_papers_filter_and_errors.2.2.1 (HttpOutcome.response 200 [rawGood])
      goodPaper (by decide),
    rfl,
    by decide,
    search_papers_filter_and_errors.2.2.2 rawShort shortAbstract rfl (by decide)⟩

end MedQuery
